import Mathlib

/-!
Shallow embedding of the core of the llol LIDAR-inertial odometry engine
(sweep grid, IMU trajectory / preintegration, GICP cost) together with
theorems checking the natural-language specification against it.

Conventions used throughout:
* Machine doubles and floats are idealized as real numbers; the float
  curvature scores, which can be NaN, are idealized as `Option ℚ` with
  `none` playing the role of NaN (only order comparisons are performed on
  scores, so a countable dense field is enough and keeps them decidable).
* A Sophus `SO3d` is modelled by its rotation matrix, so group
  multiplication is matrix multiplication, `SO3d::exp` is the matrix
  exponential of the skew-symmetric hat matrix, and the group inverse is
  the transpose.
* A fatal glog `CHECK` failure is modelled by an error result (`none` /
  `Except.error`): a function "returns" only if no CHECK fires.
* Eigen matrices written through `Map` into a caller-supplied buffer are
  modelled as total functions `ℕ → ℕ → ℝ` from (row, column) to entry, and
  a `block<3,3>(r0, c0) = B` store is a pointwise functional update.
-/

/-- 3-vectors (Eigen `Vector3d`). -/
abbrev Vec3 := Fin 3 → ℝ

/-- 3×3 real matrices (Eigen `Matrix3d`; also Sophus `SO3d` in matrix form). -/
abbrev Mat3 := Matrix (Fin 3) (Fin 3) ℝ

/-- `Hat3` from sv/util/math.h: the skew-symmetric matrix of a 3-vector
(`Hat3 w *ᵥ v = w × v`). -/
def Hat3 (w : Vec3) : Mat3 :=
  Matrix.of ![![0, -w 2, w 1], ![w 2, 0, -w 0], ![-w 1, w 0, 0]]

/-- `Sophus::SO3d::exp` in matrix form: the matrix exponential of the hat
matrix of the tangent 3-vector. -/
noncomputable def so3Exp (w : Vec3) : Mat3 :=
  NormedSpace.exp ℝ (Hat3 w)

theorem Hat3_zero : Hat3 (0 : Vec3) = 0 := by
  ext i j
  fin_cases i <;> fin_cases j <;>
    simp [Hat3, Matrix.vecHead, Matrix.vecTail]

theorem so3Exp_zero : so3Exp (0 : Vec3) = 1 := by
  rw [so3Exp, Hat3_zero, NormedSpace.exp_zero]

/-- A rigid transform (Sophus `SE3f`/`SE3d`): rotation matrix plus
translation. -/
structure SE3M where
  R : Mat3
  t : Vec3

/-- Action of a rigid transform on a point: `T * p = R * p + t`. -/
def SE3M.apply (T : SE3M) (v : Vec3) : Vec3 :=
  T.R.mulVec v + T.t

/-! ## Sweep grid: slice admission (grid.cpp `SweepGrid::Check` / `Add`) -/

/-- The part of the `SweepGrid` state that slice admission reads and
writes (grid.cpp): the score-image size in cells (`score.cols`,
`score.rows`), the cell size (`cell_size.width/height`) and the current
cell-column range `col_rg` (`colStart = col_rg.start`,
`colEnd = col_rg.end`, in cell units). -/
structure GridGeom where
  gcols : ℕ
  grows : ℕ
  cw : ℕ
  ch : ℕ
  colStart : ℕ
  colEnd : ℕ
deriving DecidableEq

/-- The part of a `LidarScan` slice that slice admission reads: image rows
and the active sweep-column range `col_rg` (in sweep columns). -/
structure ScanSlice where
  rows : ℕ
  colStart : ℕ
  colEnd : ℕ
deriving DecidableEq

/-- `SweepGrid::Check` (grid.cpp): the three glog CHECKs, in source order:
`scan.xyzr.rows == score.rows * cell_size.height`,
`scan.col_rg.start == (col_rg.end * cell_size.width) % score.cols`, and
`scan.col_rg.end <= score.cols * cell_size.width`. Returns `true` iff no
CHECK fires. -/
def SweepGrid.Check (g : GridGeom) (s : ScanSlice) : Bool :=
  (s.rows == g.grows * g.ch) &&
  (s.colStart == (g.colEnd * g.cw) % g.gcols) &&
  decide (s.colEnd ≤ g.gcols * g.cw)

/-- `SweepGrid::Add` (grid.cpp): run `Check` and then `Score`/`Filter`.
Only the column-range bookkeeping feeding `Check` is modelled here:
`Score` sets `col_rg = scan.col_rg / cell_size.width` (cell scoring and
filtering are modelled separately for the filter claims). A failed CHECK
(InvariantViolation) is `none`. -/
def SweepGrid.Add (g : GridGeom) (s : ScanSlice) : Option GridGeom :=
  if SweepGrid.Check g s then
    some { g with colStart := s.colStart / g.cw, colEnd := s.colEnd / g.cw }
  else
    none

/-- `SweepGrid::Add` over a sequence of consecutive scan slices; the first
failed CHECK aborts the sequence. -/
def SweepGrid.AddAll (g : GridGeom) : List ScanSlice → Option GridGeom
  | [] => some g
  | s :: rest => (SweepGrid.Add g s).bind fun g2 => SweepGrid.AddAll g2 rest

/-- A fresh grid with 4 cell columns of width 2 (sweep width 8), one cell
row of height 1, and empty `col_rg` (the constructed state). -/
def c4grid0 : GridGeom := ⟨4, 1, 2, 1, 0, 0⟩

/-- First slice: sweep columns [0, 2). -/
def c4s1 : ScanSlice := ⟨1, 0, 2⟩

/-- Second slice: sweep columns [2, 4); starts exactly where `c4s1` ended. -/
def c4s2 : ScanSlice := ⟨1, 2, 4⟩

/-- Third slice: sweep columns [4, 8); starts exactly where `c4s2` ended,
and together the three slices tile `[0, ncols*w_c) = [0, 8)`. -/
def c4s3 : ScanSlice := ⟨1, 4, 8⟩

/-- The grid state after admitting `c4s1` and `c4s2`: `col_rg = [1, 2)`. -/
def c4grid2 : GridGeom := ⟨4, 1, 2, 1, 1, 2⟩

/-- C4: the boundary check of `SweepGrid::Check` compares the scan start
(in sweep columns) against `(col_rg.end * cell_size.width) % score.cols`,
a quantity reduced modulo the number of grid CELLS rather than modulo the
sweep width `score.cols * cell_size.width`; consequently a slice sequence
tiling `[0, ncols*w_c)` is rejected as soon as a slice starts at sweep
column ≥ `score.cols`, even though it begins exactly where the previous
slice ended. Here slices [0,2), [2,4), [4,8) tile [0,8) on a grid with
`ncols = 4`, `w_c = 2`: the first two are admitted, the third starts
exactly at the previous end (cell 2 × width 2 = column 4) yet its CHECK
fires. This contradicts the code's own comment ("scan start must match
current end") and the spec's wrap-around scenario. -/
theorem c4_tiling_slice_rejected :
    SweepGrid.AddAll c4grid0 [c4s1, c4s2] = some c4grid2 ∧
    c4s3.colStart = c4grid2.colEnd * c4grid2.cw ∧
    c4s3.colEnd = c4grid2.gcols * c4grid2.cw ∧
    SweepGrid.Add c4grid2 c4s3 = none := by
  decide

/-! ## Sweep grid: filtering (grid.cpp `SweepGrid::IsCellGood` / `FilterRow`) -/

/-- A float curvature score: `none` models NaN. -/
abbrev FScore := Option ℚ

/-- IEEE `<` with a possibly-NaN left operand (`m < max_score` in
`IsCellGood`): a NaN never compares less. -/
def fltLt (a : FScore) (b : ℚ) : Bool :=
  match a with
  | none => false
  | some x => decide (x < b)

/-- IEEE `>` with possibly-NaN operands (`m > l`, `m > r` in the NMS test
of `IsCellGood`): any NaN operand makes the comparison false. -/
def fltGt (a b : FScore) : Bool :=
  match a, b with
  | some x, some y => decide (y < x)
  | _, _ => false

/-- `SweepGrid::IsCellGood` (grid.cpp) at grid column `x` of a fixed row:
threshold test `!(m < max_score) → false`, then, if NMS is enabled,
`m > l || m > r → false`. The score image row is a total function
`scoreRow : ℤ → FScore` (the reads at `x-1` and `x+1` may leave the
current slice's range). -/
def IsCellGood (scoreRow : ℤ → FScore) (maxScore : ℚ) (nms : Bool) (x : ℤ) : Bool :=
  if !(fltLt (scoreRow x) maxScore) then false
  else if nms then
    !(fltGt (scoreRow x) (scoreRow (x - 1)) || fltGt (scoreRow x) (scoreRow (x + 1)))
  else true

/-- State of one grid cell's match after `FilterRow`: `some (mc, px)` when
the cell was marked good (`scan.MeanCovarAt` result `mc` stored in
`match.mc_g`, grid pixel stored in `match.px_g`), `none` after
`match.Reset()`. The mean/covariance payload is kept abstract in `α`. -/
abbrev CellState (α : Type) := Option (α × ℤ)

/-- One iteration of the `FilterRow` loop body (grid.cpp) at scan column
`c`: the cell at grid column `c + col_rg.start` is set when
`pad ≤ c && c < col_rg.size() - pad && IsCellGood(px_g)`, and reset
otherwise. `meanCovar c` abstracts `scan.MeanCovarAt(Grid2Sweep({c,r}), w)`. -/
def filterRowStep (α : Type) (scoreRow : ℤ → FScore) (maxScore : ℚ) (nms : Bool)
    (start sz : ℕ) (meanCovar : ℕ → α) (row : ℤ → CellState α) (c : ℕ) :
    ℤ → CellState α :=
  let pad : ℕ := if nms then 1 else 0
  let v : CellState α :=
    if pad ≤ c ∧ c < sz - pad ∧ IsCellGood scoreRow maxScore nms (c + start) = true then
      some (meanCovar c, (c : ℤ) + start)
    else
      none
  fun x => if x = (c : ℤ) + start then v else row x

/-- The `FilterRow` loop (grid.cpp) run over scan columns `0 .. k-1`
(`k = col_rg.size()` for the full call), starting from the match row
`prev` left over from the previous sweep. -/
def filterRowGo (α : Type) (scoreRow : ℤ → FScore) (maxScore : ℚ) (nms : Bool)
    (start sz : ℕ) (meanCovar : ℕ → α) (prev : ℤ → CellState α) :
    ℕ → (ℤ → CellState α)
  | 0 => prev
  | k + 1 =>
      filterRowStep α scoreRow maxScore nms start sz meanCovar
        (filterRowGo α scoreRow maxScore nms start sz meanCovar prev k) k

/-- `SweepGrid::FilterRow` (grid.cpp): the match row after the loop over
all scan columns `0 .. col_rg.size() - 1`. -/
def FilterRow (α : Type) (scoreRow : ℤ → FScore) (maxScore : ℚ) (nms : Bool)
    (start sz : ℕ) (meanCovar : ℕ → α) (prev : ℤ → CellState α) :
    ℤ → CellState α :=
  filterRowGo α scoreRow maxScore nms start sz meanCovar prev sz

/-- A possibly-NaN score viewed in `WithTop ℚ`, NaN counting as +∞ (the
spec's reading of a NaN neighbor in the NMS test). -/
def scoreTop (a : FScore) : WithTop ℚ :=
  match a with
  | none => ⊤
  | some x => (x : WithTop ℚ)

/-- The claim's "good" predicate, written from the spec's words: the score
is a (non-NaN) value `v` with `v < max_score`, and, when NMS is enabled,
`v` is ≤ both neighbor scores, a NaN neighbor comparing as +∞. -/
def CellGoodSpec (scoreRow : ℤ → FScore) (maxScore : ℚ) (nms : Bool) (x : ℤ) : Prop :=
  ∃ v : ℚ, scoreRow x = some v ∧ v < maxScore ∧
    (nms = true →
      (v : WithTop ℚ) ≤ scoreTop (scoreRow (x - 1)) ∧
      (v : WithTop ℚ) ≤ scoreTop (scoreRow (x + 1)))

theorem isCellGood_iff_spec (scoreRow : ℤ → FScore) (maxScore : ℚ) (nms : Bool) (x : ℤ) :
    IsCellGood scoreRow maxScore nms x = true ↔ CellGoodSpec scoreRow maxScore nms x := by
  unfold IsCellGood CellGoodSpec
  cases hx : scoreRow x with
  | none => simp [fltLt]
  | some v =>
    cases nms with
    | false => simp [fltLt, scoreTop]
    | true =>
      cases hl : scoreRow (x - 1) <;> cases hr : scoreRow (x + 1) <;>
        simp [fltLt, fltGt, scoreTop, not_lt, WithTop.coe_le_coe, le_top, and_comm]

theorem filterRowGo_eq (α : Type) (scoreRow : ℤ → FScore) (maxScore : ℚ) (nms : Bool)
    (start sz : ℕ) (meanCovar : ℕ → α) (prev : ℤ → CellState α) (k : ℕ) (x : ℤ) :
    filterRowGo α scoreRow maxScore nms start sz meanCovar prev k x =
      if (start : ℤ) ≤ x ∧ x < (start : ℤ) + k then
        (let pad : ℕ := if nms then 1 else 0
         let c : ℕ := (x - start).toNat
         if pad ≤ c ∧ c < sz - pad ∧ IsCellGood scoreRow maxScore nms x = true then
           some (meanCovar c, x)
         else none)
      else prev x := by
  induction k with
  | zero =>
      rw [if_neg (by omega)]
      rfl
  | succ k ih =>
      show filterRowStep α scoreRow maxScore nms start sz meanCovar
        (filterRowGo α scoreRow maxScore nms start sz meanCovar prev k) k x = _
      unfold filterRowStep
      by_cases hx : x = (k : ℤ) + start
      · subst hx
        have hb : (start : ℤ) ≤ (k : ℤ) + (start : ℤ) ∧
            (k : ℤ) + (start : ℤ) < (start : ℤ) + ((k + 1 : ℕ) : ℤ) := by
          push_cast
          omega
        rw [if_pos rfl, if_pos hb]
        have hc : (((k : ℤ) + (start : ℤ)) - (start : ℤ)).toNat = k := by omega
        simp only [hc]
      · rw [if_neg hx, ih]
        by_cases hin : (start : ℤ) ≤ x ∧ x < (start : ℤ) + (k : ℤ)
        · have hb : (start : ℤ) ≤ x ∧ x < (start : ℤ) + ((k + 1 : ℕ) : ℤ) := by
            push_cast
            omega
          rw [if_pos hin, if_pos hb]
        · by_cases hb : (start : ℤ) ≤ x ∧ x < (start : ℤ) + ((k + 1 : ℕ) : ℤ)
          · exact absurd (by push_cast at hb; omega : x = (k : ℤ) + (start : ℤ)) hx
          · rw [if_neg hin, if_neg hb]

/-- C5: for every cell in the active window (scan columns `0 ≤ c < sz`,
grid columns `start ≤ x < start + sz`), `FilterRow` marks the cell good —
storing its mean/covariance and grid pixel — iff its score satisfies
`score < max_score` and, when NMS is enabled, `score ≤ score[left]` and
`score ≤ score[right]` with a NaN neighbor comparing as +∞; when NMS is on
the first (`c = 0`) and last (`c = sz - 1`) column of the window are
always skipped (the pad bound), every cell in the window not marked good
is reset (`none`), and cells outside the window are left untouched. The
second conjunct is the equivalence of the code's `IsCellGood` with the
spec's predicate. -/
theorem c5_filter_marks_good_cells (α : Type) (scoreRow : ℤ → FScore) (maxScore : ℚ)
    (nms : Bool) (start sz : ℕ) (meanCovar : ℕ → α) (prev : ℤ → CellState α) :
    (∀ x : ℤ,
        FilterRow α scoreRow maxScore nms start sz meanCovar prev x =
          if (start : ℤ) ≤ x ∧ x < (start : ℤ) + sz then
            (let pad : ℕ := if nms then 1 else 0
             let c : ℕ := (x - start).toNat
             if pad ≤ c ∧ c < sz - pad ∧ IsCellGood scoreRow maxScore nms x = true then
               some (meanCovar c, x)
             else none)
          else prev x) ∧
    (∀ x : ℤ, IsCellGood scoreRow maxScore nms x = true ↔
        CellGoodSpec scoreRow maxScore nms x) := by
  constructor
  · intro x
    exact filterRowGo_eq α scoreRow maxScore nms start sz meanCovar prev sz x
  · intro x
    exact isCellGood_iff_spec scoreRow maxScore nms x

/-! ## IMU: samples, trajectory, preintegration (imu.cpp) -/

/-- Outcome of a fallible IMU routine. `checkFail` models a fatal glog
CHECK failure (the process aborts, producing no state). `insufficientIMU`
is the recoverable error named by the spec's error taxonomy; no code path
in imu.cpp produces it. -/
inductive ImuErr where
  | checkFail
  | insufficientIMU
deriving DecidableEq

/-- One IMU sample (`ImuData`): timestamp, accelerometer, gyroscope. -/
structure ImuData where
  time : ℝ
  acc : Vec3
  gyr : Vec3

instance : Inhabited ImuData := ⟨{ time := 0, acc := 0, gyr := 0 }⟩

/-- IMU bias (`ImuBias`): accelerometer and gyroscope bias. -/
structure ImuBias where
  acc : Vec3
  gyr : Vec3

/-- `ImuData::DeBiased` (imu.h, not among the sources; per the spec the
measurements are de-biased before use): subtract the bias from both
channels, keeping the timestamp. -/
def ImuData.DeBiased (d : ImuData) (b : ImuBias) : ImuData :=
  { d with acc := d.acc - b.acc, gyr := d.gyr - b.gyr }

/-- `ImuNoise`: the 12 per-axis variances (acc / gyr noise, acc / gyr bias
random walk) as assembled by the `ImuNoise` constructor. -/
structure ImuNoise where
  sigma2 : Fin 12 → ℝ

/-- A navigation state (`NavState`): time, rotation, position, velocity. -/
structure NavState where
  time : ℝ
  rot : Mat3
  pos : Vec3
  vel : Vec3

instance : Inhabited NavState := ⟨{ time := 0, rot := 1, pos := 0, vel := 0 }⟩

/-- `ImuTrajectory` / `Trajectory`: the navigation states across the
sweep, the IMU buffer, bias, noise model and pano-frame gravity. Only the
members read by the verified operations are modelled (gravity and
extrinsic initialization are untouched by the claims). -/
structure ImuTraj where
  states : List NavState
  buf : List ImuData
  bias : ImuBias
  noise : ImuNoise
  g_pano : Vec3

/-- `Trajectory::duration() = back.time - front.time` (traj.h, not among
the sources; stated by the spec). -/
noncomputable def ImuTraj.duration (tr : ImuTraj) : ℝ :=
  ((tr.states.getLast?).getD default).time - ((tr.states.head?).getD default).time

/-- `FindNextImu(buf, t)` (imu.cpp): the index of the first sample with
`time > t`; `none` models the `-1` not-found result. -/
noncomputable def FindNextImu : List ImuData → ℝ → Option ℕ
  | [], _ => none
  | d :: rest, t => if t < d.time then some 0 else (FindNextImu rest t).map (· + 1)

theorem findNextImu_eq_none (buf : List ImuData) (t : ℝ)
    (h : ∀ d ∈ buf, d.time ≤ t) : FindNextImu buf t = none := by
  induction buf with
  | nil => rfl
  | cons d rest ih =>
      show (if t < d.time then some 0 else (FindNextImu rest t).map (· + 1)) = none
      rw [if_neg (not_lt.mpr (h d (List.mem_cons_self d rest))),
        ih fun x hx => h x (List.mem_cons_of_mem d hx)]
      rfl

/-- `ImuPreintegration::Index` layout for rows/columns of F and P (imu.h;
stated in the spec and in the vins-mono comment in imu.cpp). -/
def idxALPHA : ℕ := 0

/-- Row/column of the β block. -/
def idxBETA : ℕ := 3

/-- Row/column of the θ block. -/
def idxTHETA : ℕ := 6

/-- Row/column of the accelerometer-bias block. -/
def idxBA : ℕ := 9

/-- Row/column of the gyroscope-bias block. -/
def idxBW : ℕ := 12

/-- `M.block<3,3>(r0, c0) = B` on a 15×15 matrix: overwrite the 3×3 block
whose top-left corner is `(r0, c0)`. -/
def setBlock15 (M : Matrix (Fin 15) (Fin 15) ℝ) (r0 c0 : ℕ)
    (B : Mat3) : Matrix (Fin 15) (Fin 15) ℝ :=
  Matrix.of fun i j =>
    if h : r0 ≤ i.val ∧ i.val < r0 + 3 ∧ c0 ≤ j.val ∧ j.val < c0 + 3 then
      B ⟨i.val - r0, by omega⟩ ⟨j.val - c0, by omega⟩
    else M i j

/-- `P.diagonal().tail<12>() += noise.sigma2` (imu.cpp): add the noise
variances to the last 12 diagonal entries. -/
def addTailDiag (M : Matrix (Fin 15) (Fin 15) ℝ) (sig : Fin 12 → ℝ) :
    Matrix (Fin 15) (Fin 15) ℝ :=
  Matrix.of fun i j =>
    if h : i = j ∧ 3 ≤ i.val then
      M i j + sig ⟨i.val - 3, by have hi := i.isLt; omega⟩
    else M i j

/-- The five F-block stores of `ImuPreintegration::Integrate` (imu.cpp,
vins-mono eq 9), in source order, with `Rmat = gamma.matrix()` taken
before gamma is updated. -/
def updateF (F0 : Matrix (Fin 15) (Fin 15) ℝ) (gammaM : Mat3) (a w : Vec3) :
    Matrix (Fin 15) (Fin 15) ℝ :=
  let F1 := setBlock15 F0 idxALPHA idxBETA 1
  let F2 := setBlock15 F1 idxBETA idxTHETA (-(gammaM * Hat3 a))
  let F3 := setBlock15 F2 idxBETA idxBA (-gammaM)
  let F4 := setBlock15 F3 idxTHETA idxTHETA (-(Hat3 w))
  setBlock15 F4 idxTHETA idxBW (-1)

/-- `ImuPreintegration` state: α, β, γ, the 15×15 Jacobian F and
covariance P, duration and count n. The sqrt-info `U = MatrixSqrtUtU(P⁻¹)`
(sv/util/math, not among the sources) is not modelled; no claim refers to
its value. -/
structure Preint where
  alpha : Vec3
  beta : Vec3
  gamma : Mat3
  F : Matrix (Fin 15) (Fin 15) ℝ
  P : Matrix (Fin 15) (Fin 15) ℝ
  duration : ℝ
  n : ℕ

/-- `ImuPreintegration::Reset` (imu.cpp): everything zeroed, γ and F
identity. -/
def Preint.Reset : Preint :=
  { alpha := 0, beta := 0, gamma := 1, F := 1, P := 0, duration := 0, n := 0 }

/-- Body of `ImuPreintegration::Integrate(dt, imu, noise)` (imu.cpp,
vins-mono eq 7/9/10), after the `CHECK_GT(dt, 0)`:
`ga = gamma * a`, `dgamma = exp(w*dt)`, `dbeta = ga*dt`,
`dalpha = beta*dt + ga*dt²*0.5`, the F-block stores, `P = F*P*Fᵀ*dt²`
plus noise on the tail-12 diagonal, then the accumulation. -/
noncomputable def integrateStep (s : Preint) (dt : ℝ) (imu : ImuData)
    (noise : ImuNoise) : Preint :=
  let dt2 := dt * dt
  let a := imu.acc
  let w := imu.gyr
  let ga := s.gamma.mulVec a
  let dgamma := so3Exp (dt • w)
  let dbeta := dt • ga
  let dalpha := dt • s.beta + (dt2 * 0.5) • ga
  let Fnew := updateF s.F s.gamma a w
  let Pnew := addTailDiag (dt2 • (Fnew * s.P * Fnew.transpose)) noise.sigma2
  { alpha := s.alpha + dalpha
    beta := s.beta + dbeta
    gamma := s.gamma * dgamma
    F := Fnew
    P := Pnew
    duration := s.duration + dt
    n := s.n + 1 }

/-- `ImuPreintegration::Integrate` (imu.cpp) with its `CHECK_GT(dt, 0)`. -/
noncomputable def Preint.Integrate (s : Preint) (dt : ℝ) (imu : ImuData)
    (noise : ImuNoise) : Except ImuErr Preint :=
  if 0 < dt then .ok (integrateStep s dt imu noise) else .error .checkFail

/-- The `while` loop of `ImuPreintegration::Compute` (imu.cpp) followed by
the final fractional step: integrate `(cur.time - t)` with the current
sample, then stop — finishing with a step of `(t1 - cur.time)` — when the
current sample is the last one or the next sample's time is ≥ t1, and
otherwise advance to the next sample. `rest` is the buffer suffix after
the current sample. -/
noncomputable def computeLoop (bias : ImuBias) (noise : ImuNoise) (t1 : ℝ) :
    List ImuData → Preint → ℝ → ImuData → Except ImuErr Preint
  | [], s, t, cur =>
      (s.Integrate (cur.time - t) (cur.DeBiased bias) noise).bind fun s1 =>
        s1.Integrate (t1 - cur.time) (cur.DeBiased bias) noise
  | next :: rest2, s, t, cur =>
      (s.Integrate (cur.time - t) (cur.DeBiased bias) noise).bind fun s1 =>
        if t1 ≤ next.time then
          s1.Integrate (t1 - cur.time) (cur.DeBiased bias) noise
        else
          computeLoop bias noise t1 rest2 s1 cur.time next

/-- `ImuPreintegration::Compute` (imu.cpp). In imu.cpp the endpoints come
from the trajectory (`t0 = front.time`, `t1 = back.time`) and the buffer,
bias and noise are the trajectory's; cost.cpp invokes the same
computation with an explicit queue and endpoints, so all are parameters
here. `CHECK_LT(t0, t1)` and `CHECK_LE(0, ibuf0)` failures are
`checkFail`. The final sqrt-info `U = MatrixSqrtUtU(P.inverse())` is not
modelled (sv/util, not among the sources); no claim refers to it. -/
noncomputable def Preint.Compute (s : Preint) (buf : List ImuData) (bias : ImuBias)
    (noise : ImuNoise) (t0 t1 : ℝ) : Except ImuErr Preint :=
  if t0 < t1 then
    match FindNextImu buf t0 with
    | none => .error .checkFail
    | some i => computeLoop bias noise t1 (buf.drop (i + 1)) s t0 (buf.getD i default)
  else .error .checkFail

/-- The `for` loop of `ImuTrajectory::Predict` (imu.cpp), filling states
`i = 1 .. N-1`: advance `ibuf` when the current sample is older than the
cell time `ti = t0 + dt*i`, clamp it to the last sample, then set
`time = prev.time + dt`, copy `pos` from state 0 and integrate the
rotation with the de-biased gyro. Velocities are untouched. Returns the
updated states and the final `ibuf`. -/
noncomputable def predictLoop (buf : List ImuData) (bias : ImuBias) (t0 dt : ℝ)
    (pos0 : Vec3) : List NavState → ℕ → ℕ → NavState → List NavState × ℕ
  | [], _, ibuf, _ => ([], ibuf)
  | st :: rest, i, ibuf, prev =>
      let ti := t0 + dt * (i : ℝ)
      let ibuf1 := if (buf.getD ibuf default).time < ti then ibuf + 1 else ibuf
      let ibuf2 := if buf.length ≤ ibuf1 then buf.length - 1 else ibuf1
      let imu := (buf.getD ibuf2 default).DeBiased bias
      let curr : NavState :=
        { st with time := prev.time + dt, pos := pos0,
                  rot := prev.rot * so3Exp (dt • imu.gyr) }
      let res := predictLoop buf bias t0 dt pos0 rest (i + 1) ibuf2 curr
      (curr :: res.1, res.2)

/-- `ImuTrajectory::Predict(t0, dt)` (imu.cpp). When the buffer holds no
sample with time > t0, `FindNextImu` returns -1 and `CHECK_GE(ibuf, 0)`
fires — the early-return `if (ibuf < 0) return 0;` of the earlier
revision of the file is commented out. Otherwise state 0's time is set to
t0, the loop fills the remaining states, and `ibuf - ibuf0 + 1` is
returned. (An empty state vector would throw from `states.at(0)`, also
modelled as an error.) -/
noncomputable def ImuTraj.Predict (tr : ImuTraj) (t0 dt : ℝ) :
    Except ImuErr (ImuTraj × ℤ) :=
  match FindNextImu tr.buf t0 with
  | none => .error .checkFail
  | some ibuf0 =>
      match tr.states with
      | [] => .error .checkFail
      | s0 :: rest =>
          let s0a : NavState := { s0 with time := t0 }
          let res := predictLoop tr.buf tr.bias t0 dt s0a.pos rest 1 ibuf0 s0a
          .ok ({ tr with states := s0a :: res.1 }, (res.2 : ℤ) - (ibuf0 : ℤ) + 1)

/-- A trajectory with two states whose single-sample IMU buffer holds no
sample newer than t0 = 1 (the sample is at time 0). -/
def c2traj : ImuTraj :=
  { states := [{ time := 0, rot := 1, pos := 0, vel := 0 },
               { time := 0, rot := 1, pos := 0, vel := 0 }],
    buf := [{ time := 0, acc := 0, gyr := 0 }],
    bias := { acc := 0, gyr := 0 },
    noise := { sigma2 := 0 },
    g_pano := 0 }

/-- C2 counterexample: on a buffer with no IMU sample newer than t0 = 1,
`ImuTrajectory::Predict` is not a no-op returning 0 with unchanged
states — the fatal `CHECK_GE(ibuf, 0)` fires and no result is produced
(the older revision's early `return 0` is commented out in imu.cpp). -/
theorem c2_predict_aborts_at_input :
    ImuTraj.Predict c2traj 1 1 = .error .checkFail ∧
    ImuTraj.Predict c2traj 1 1 ≠ .ok (c2traj, 0) := by
  have h : FindNextImu c2traj.buf 1 = none := by
    apply findNextImu_eq_none
    intro d hd
    simp only [c2traj] at hd
    rw [List.mem_singleton] at hd
    subst hd
    norm_num
  constructor
  · unfold ImuTraj.Predict
    rw [h]
  · unfold ImuTraj.Predict
    rw [h]
    exact fun hc => Except.noConfusion hc

/-- C2 (amended): whenever the IMU buffer contains no sample with
timestamp strictly greater than t0, `ImuTrajectory::Predict(t0, dt)` is
not a no-op returning 0: the fatal `CHECK_GE(ibuf, 0)` fires, aborting
before any trajectory state is written. -/
theorem c2_predict_check_fires (tr : ImuTraj) (t0 dt : ℝ)
    (h : ∀ d ∈ tr.buf, d.time ≤ t0) :
    ImuTraj.Predict tr t0 dt = .error .checkFail := by
  unfold ImuTraj.Predict
  rw [findNextImu_eq_none tr.buf t0 h]

theorem c2_predict_check_fires_witness :
    (∀ d ∈ c2traj.buf, d.time ≤ (1 : ℝ)) ∧
    ImuTraj.Predict c2traj 1 1 = .error .checkFail := by
  have h : ∀ d ∈ c2traj.buf, d.time ≤ (1 : ℝ) := by
    intro d hd
    simp only [c2traj] at hd
    rw [List.mem_singleton] at hd
    subst hd
    norm_num
  exact ⟨h, c2_predict_check_fires c2traj 1 1 h⟩

/-- C3 (amended): whenever the IMU queue contains no sample inside the
preintegration window — no sample newer than t0, in particular an empty
buffer — `ImuPreintegration::Compute` does not return the recoverable
`InsufficientIMU`: the fatal `CHECK_LE(0, ibuf0)` fires and the process
aborts, so no GICP-only solve can follow. -/
theorem c3_compute_check_fires (s : Preint) (buf : List ImuData) (bias : ImuBias)
    (noise : ImuNoise) (t0 t1 : ℝ) (h : ∀ d ∈ buf, d.time ≤ t0) :
    Preint.Compute s buf bias noise t0 t1 = .error .checkFail := by
  unfold Preint.Compute
  rw [findNextImu_eq_none buf t0 h]
  by_cases h01 : t0 < t1
  · rw [if_pos h01]
  · rw [if_neg h01]

theorem c3_compute_check_fires_witness :
    (∀ d ∈ ([] : List ImuData), d.time ≤ (0 : ℝ)) ∧
    Preint.Compute Preint.Reset [] { acc := 0, gyr := 0 } { sigma2 := 0 } 0 1 =
      .error .checkFail :=
  ⟨by simp, c3_compute_check_fires Preint.Reset [] _ _ 0 1 (by simp)⟩

/-- C3 counterexample: on an empty IMU queue with window (0, 1),
`ImuPreintegration::Compute` fails with the fatal `checkFail`, which is
not the recoverable `insufficientIMU` of the claim. -/
theorem c3_compute_fatal_not_recoverable :
    Preint.Compute Preint.Reset [] { acc := 0, gyr := 0 } { sigma2 := 0 } 0 1 =
      .error .checkFail ∧
    (Except.error ImuErr.checkFail : Except ImuErr Preint) ≠
      .error .insufficientIMU := by
  constructor
  · unfold Preint.Compute
    rw [findNextImu_eq_none [] 0 (by simp), if_pos (by norm_num)]
  · intro hc
    injection hc with hc2
    exact ImuErr.noConfusion hc2

/-- C7: each `ImuPreintegration::Integrate(dt, imu, noise)` step with
dt > 0 succeeds and computes `dβ = γ·a·dt` and
`dα = β·dt + 0.5·γ·a·dt²` from the pre-update β, γ, accumulates
`α += dα`, `β += dβ`, `γ ← γ·exp(ω·dt)`, `duration += dt`, `n += 1`, and
updates the covariance to `F·P·Fᵀ·dt²` (with the updated F) everywhere
except the tail-12 diagonal entries, which additionally receive the noise
variances. -/
theorem c7_integrate_semantics (s : Preint) (dt : ℝ) (imu : ImuData)
    (noise : ImuNoise) (hdt : 0 < dt) :
    ∃ s1, Preint.Integrate s dt imu noise = .ok s1 ∧
      s1.alpha = s.alpha + (dt • s.beta + ((dt * dt) * 0.5) • s.gamma.mulVec imu.acc) ∧
      s1.beta = s.beta + dt • s.gamma.mulVec imu.acc ∧
      s1.gamma = s.gamma * so3Exp (dt • imu.gyr) ∧
      s1.duration = s.duration + dt ∧
      s1.n = s.n + 1 ∧
      s1.F = updateF s.F s.gamma imu.acc imu.gyr ∧
      (∀ i j : Fin 15, ¬(i = j ∧ 3 ≤ i.val) →
        s1.P i j = ((dt * dt) • (s1.F * s.P * s1.F.transpose)) i j) ∧
      (∀ j : Fin 12,
        s1.P ⟨j.val + 3, by omega⟩ ⟨j.val + 3, by omega⟩ =
          ((dt * dt) • (s1.F * s.P * s1.F.transpose))
              ⟨j.val + 3, by omega⟩ ⟨j.val + 3, by omega⟩ + noise.sigma2 j) := by
  refine ⟨integrateStep s dt imu noise, ?_, rfl, rfl, rfl, rfl, rfl, rfl, ?_, ?_⟩
  · unfold Preint.Integrate
    rw [if_pos hdt]
  · intro i j hij
    show addTailDiag _ _ i j = _
    unfold addTailDiag
    rw [Matrix.of_apply, dif_neg hij]
    rfl
  · intro j
    show addTailDiag _ _ _ _ = _
    unfold addTailDiag
    rw [Matrix.of_apply, dif_pos ⟨rfl, Nat.le_add_left 3 j.val⟩]
    rfl

theorem c7_integrate_semantics_witness :
    (0 : ℝ) < 1 ∧
    ∃ s1, Preint.Integrate Preint.Reset 1 { time := 0, acc := 0, gyr := 0 }
        { sigma2 := 0 } = .ok s1 ∧
      s1.duration = Preint.Reset.duration + 1 ∧ s1.n = Preint.Reset.n + 1 := by
  refine ⟨by norm_num, ?_⟩
  obtain ⟨s1, hok, _, _, _, hdur, hn, _⟩ :=
    c7_integrate_semantics Preint.Reset 1 { time := 0, acc := 0, gyr := 0 }
      { sigma2 := 0 } (by norm_num)
  exact ⟨s1, hok, hdur, hn⟩

theorem integrate_ok_duration (s s1 : Preint) (dt : ℝ) (imu : ImuData)
    (noise : ImuNoise) (h : Preint.Integrate s dt imu noise = .ok s1) :
    s1.duration = s.duration + dt := by
  unfold Preint.Integrate at h
  by_cases hdt : 0 < dt
  · rw [if_pos hdt] at h
    injection h with h2
    rw [← h2]
    rfl
  · rw [if_neg hdt] at h
    exact Except.noConfusion h

theorem computeLoop_duration (bias : ImuBias) (noise : ImuNoise) (t1 : ℝ)
    (rest : List ImuData) :
    ∀ (s : Preint) (t : ℝ) (cur : ImuData) (s2 : Preint),
      computeLoop bias noise t1 rest s t cur = .ok s2 →
      s2.duration = s.duration + (t1 - t) := by
  induction rest with
  | nil =>
      intro s t cur s2 h
      unfold computeLoop at h
      cases he : Preint.Integrate s (cur.time - t) (cur.DeBiased bias) noise with
      | error e => rw [he] at h; exact Except.noConfusion h
      | ok s1 =>
          rw [he] at h
          have h2 : Preint.Integrate s1 (t1 - cur.time) (cur.DeBiased bias) noise
              = .ok s2 := h
          have d1 := integrate_ok_duration s s1 _ _ _ he
          have d2 := integrate_ok_duration s1 s2 _ _ _ h2
          rw [d2, d1]
          ring
  | cons next rest2 ih =>
      intro s t cur s2 h
      unfold computeLoop at h
      cases he : Preint.Integrate s (cur.time - t) (cur.DeBiased bias) noise with
      | error e => rw [he] at h; exact Except.noConfusion h
      | ok s1 =>
          rw [he] at h
          have d1 := integrate_ok_duration s s1 _ _ _ he
          have h2 : (if t1 ≤ next.time then
              Preint.Integrate s1 (t1 - cur.time) (cur.DeBiased bias) noise
            else computeLoop bias noise t1 rest2 s1 cur.time next) = Except.ok s2 := h
          by_cases hnx : t1 ≤ next.time
          · rw [if_pos hnx] at h2
            have d2 := integrate_ok_duration s1 s2 _ _ _ h2
            rw [d2, d1]
            ring
          · rw [if_neg hnx] at h2
            have d2 := ih s1 cur.time next s2 h2
            rw [d2, d1]
            ring

/-- C10: whenever `ImuPreintegration::Compute` over window endpoints
t0 < t1, started from a `Reset` state, returns normally (no CHECK fires),
the accumulated duration telescopes to exactly `t1 - t0`: the per-step
durations `(t_first - t0) + Σ gaps + (t1 - t_last)` sum to the window
length, so the `dt = preint.duration` used by the inertial residual
equals `t1 - t0`. -/
theorem c10_compute_duration_telescopes (buf : List ImuData) (bias : ImuBias)
    (noise : ImuNoise) (t0 t1 : ℝ) (s2 : Preint)
    (h : Preint.Compute Preint.Reset buf bias noise t0 t1 = .ok s2) :
    s2.duration = t1 - t0 := by
  unfold Preint.Compute at h
  by_cases h01 : t0 < t1
  · rw [if_pos h01] at h
    cases hf : FindNextImu buf t0 with
    | none => rw [hf] at h; exact Except.noConfusion h
    | some i =>
        rw [hf] at h
        have hd := computeLoop_duration bias noise t1 (buf.drop (i + 1))
          Preint.Reset t0 (buf.getD i default) s2 h
        rw [hd]
        show (0 : ℝ) + (t1 - t0) = t1 - t0
        ring
  · rw [if_neg h01] at h
    exact Except.noConfusion h

/-- A single IMU sample at time 1/2 with zero measurements. -/
noncomputable def c10imu : ImuData := { time := 1/2, acc := 0, gyr := 0 }

/-- Zero IMU bias. -/
def bias0 : ImuBias := { acc := 0, gyr := 0 }

/-- Zero noise variances. -/
def noise0 : ImuNoise := { sigma2 := 0 }

/-- The preintegration state Compute produces on `[c10imu]` over (0, 1):
one step to the sample, one fractional step to t1. -/
noncomputable def c10state : Preint :=
  integrateStep
    (integrateStep Preint.Reset (c10imu.time - 0) (c10imu.DeBiased bias0) noise0)
    (1 - c10imu.time) (c10imu.DeBiased bias0) noise0

theorem c10_compute_concrete :
    Preint.Compute Preint.Reset [c10imu] bias0 noise0 0 1 = .ok c10state := by
  unfold Preint.Compute
  rw [if_pos (by norm_num)]
  have hf : FindNextImu [c10imu] 0 = some 0 := by
    show (if (0 : ℝ) < c10imu.time then some 0 else (FindNextImu [] 0).map (· + 1))
      = some 0
    rw [if_pos (by norm_num [c10imu])]
  rw [hf]
  show computeLoop bias0 noise0 1 [] Preint.Reset 0 c10imu = .ok c10state
  show (Preint.Integrate Preint.Reset (c10imu.time - 0) (c10imu.DeBiased bias0)
      noise0).bind
      (fun s1 => s1.Integrate (1 - c10imu.time) (c10imu.DeBiased bias0) noise0)
    = .ok c10state
  rw [Preint.Integrate, if_pos (by norm_num [c10imu])]
  show Preint.Integrate _ (1 - c10imu.time) (c10imu.DeBiased bias0) noise0
    = .ok c10state
  rw [Preint.Integrate, if_pos (by norm_num [c10imu])]
  rfl

theorem c10_compute_duration_telescopes_witness :
    Preint.Compute Preint.Reset [c10imu] bias0 noise0 0 1 = .ok c10state ∧
    c10state.duration = 1 - 0 :=
  ⟨c10_compute_concrete,
   c10_compute_duration_telescopes [c10imu] bias0 noise0 0 1 c10state
     c10_compute_concrete⟩

/-! ## GICP cost (cost.cpp) -/

/-- The fields of a grid cell match (`PointMatch`, match.h — not among
the sources; fields and `Ok()` as used by cost.cpp and described by the
spec's data model): validity flag, sqrt-information U, sweep-frame mean
`mc_g.mean`, pano-frame mean `mc_p.mean`, and grid column `px_g.x`. -/
structure PointMatch where
  ok : Bool
  U : Mat3
  mcgMean : Vec3
  mcpMean : Vec3
  px : ℕ

/-- The members of `GicpCost` the grain-size claim depends on: the grain
`gsize_` and the collected matches. -/
structure GicpCostM where
  gsize_ : ℤ
  «matches» : List PointMatch

/-- `GicpCost::GicpCost(int gsize)` (cost.cpp):
`gsize_ = gsize <= 0 ? matches.size() : gsize + 2`. The member `matches`
is empty at construction time. -/
def GicpCost.init (gsize : ℤ) : GicpCostM :=
  let ms : List PointMatch := []
  { gsize_ := if gsize ≤ 0 then (ms.length : ℤ) else gsize + 2
    «matches» := ms }

/-- The match grid handed to `UpdateMatches`: `MatchAt({c, r})` over
`rows() × cols()`. -/
structure MatchGrid where
  rows : ℕ
  cols : ℕ
  matchAt : ℕ → ℕ → PointMatch

/-- `GicpCost::UpdateMatches` (cost.cpp): collect all `Ok()` matches in
row-major order. `gsize_` is not recomputed. -/
def GicpCostM.UpdateMatches (st : GicpCostM) (g : MatchGrid) : GicpCostM :=
  { st with
    «matches» :=
      (List.range g.rows).flatMap fun r =>
        (List.range g.cols).filterMap fun c =>
          if (g.matchAt c r).ok then some (g.matchAt c r) else none }

/-- `r0()` of the parameter `State` (cost.h; the spec's ξ = (r₀, p₀)):
the first three entries of the 6-vector. -/
def stateR0 (x : Fin 6 → ℝ) : Vec3 := fun i => x ⟨i.val, by omega⟩

/-- `p0()` of the parameter `State`: the last three entries. -/
def stateP0 (x : Fin 6 → ℝ) : Vec3 := fun i => x ⟨i.val + 3, by omega⟩

/-- Per-match residual of `GicpRigidCost::operator()` (cost.cpp):
`r = U * (pt_p - eT * (T_p_g(c) * pt_g))` with `eT = {exp(r0), p0}`. -/
noncomputable def rigidMatchResidual (tfAt : ℕ → SE3M) (x : Fin 6 → ℝ)
    (m : PointMatch) : Vec3 :=
  let eT : SE3M := { R := so3Exp (stateR0 x), t := stateP0 x }
  let ptPhat := (tfAt m.px).apply m.mcgMean
  m.U.mulVec (m.mcpMean - eT.apply ptPhat)

/-- All per-match residual 3-vectors written by
`GicpRigidCost::operator()` (rows `3i .. 3i+2` for match `i`). -/
noncomputable def rigidResiduals (tfAt : ℕ → SE3M) (x : Fin 6 → ℝ)
    (ms : List PointMatch) : List Vec3 :=
  ms.map (rigidMatchResidual tfAt x)

/-- Per-match residual of `GicpLinearCost::operator()` (cost.cpp):
`r = U * (pt_p - (eR * pt_p_hat + s * ep))`, `s = (c + 0.5) / cols`. -/
noncomputable def linearMatchResidual (tfAt : ℕ → SE3M) (ncols : ℕ)
    (x : Fin 6 → ℝ) (m : PointMatch) : Vec3 :=
  let eR := so3Exp (stateR0 x)
  let ep := stateP0 x
  let ptPhat := (tfAt m.px).apply m.mcgMean
  let s : ℝ := ((m.px : ℝ) + 0.5) / (ncols : ℝ)
  m.U.mulVec (m.mcpMean - (eR.mulVec ptPhat + s • ep))

/-- All per-match residual 3-vectors written by
`GicpLinearCost::operator()`. -/
noncomputable def linearResiduals (tfAt : ℕ → SE3M) (ncols : ℕ)
    (x : Fin 6 → ℝ) (ms : List PointMatch) : List Vec3 :=
  ms.map (linearMatchResidual tfAt ncols x)

/-- `GicpRigidCost::UpdateTraj` (cost.cpp): with `dt = traj.duration()`
and `eR = exp(error.r0())`, update only the first state:
`rot ← eR·rot`, `pos ← eR·pos + p0`, `vel += p0 / dt`. -/
noncomputable def GicpRigidCost.UpdateTraj (tr : ImuTraj) (error : Fin 6 → ℝ) :
    ImuTraj :=
  let dt := tr.duration
  let eR := so3Exp (stateR0 error)
  { tr with
    states :=
      match tr.states with
      | [] => []
      | st :: rest =>
          { st with
            rot := eR * st.rot
            pos := eR.mulVec st.pos + stateP0 error
            vel := st.vel + fun i => stateP0 error i / dt } :: rest }

/-- C9 (amended): the grain size is `user_gsize + 2` when
`user_gsize > 0`, but when `user_gsize ≤ 0` it equals the size of the
`matches` vector at construction time — which is 0, since matches are
only collected later by `UpdateMatches`, which does not recompute
`gsize_` — not the number of collected matches. -/
theorem c9_gsize_fixed_at_construction (gsize : ℤ) (g : MatchGrid) :
    ((GicpCost.init gsize).UpdateMatches g).gsize_ =
      if gsize ≤ 0 then 0 else gsize + 2 := rfl

/-- A 1×1 match grid holding a single valid match. -/
def c9grid : MatchGrid :=
  { rows := 1, cols := 1,
    matchAt := fun _ _ =>
      { ok := true, U := 1, mcgMean := 0, mcpMean := 0, px := 0 } }

/-- C9 counterexample: constructed with `gsize = -1` and then given one
collected match, the cost object's grain is 0 (the match count at
construction time), not the number of collected matches (1): the claim's
"all at once" reading fails. -/
theorem c9_gsize_not_match_count :
    ((GicpCost.init (-1)).UpdateMatches c9grid).gsize_ = 0 ∧
    ((GicpCost.init (-1)).UpdateMatches c9grid).matches.length = 1 ∧
    (0 : ℤ) ≠ 1 := by
  refine ⟨rfl, rfl, by norm_num⟩

/-- C6: for both cost variants, with parameter vector ξ = 0, no attached
trajectory (so only the per-match residuals are written), and every match
satisfying `mc_p.mean = T_p_g(c) * mc_g.mean`, every residual entry
written by `operator()` is zero. -/
theorem c6_zero_residual_at_identity (tfAt : ℕ → SE3M) (ncols : ℕ)
    (ms : List PointMatch)
    (h : ∀ m ∈ ms, m.mcpMean = (tfAt m.px).apply m.mcgMean) :
    (∀ r ∈ rigidResiduals tfAt 0 ms, r = 0) ∧
    (∀ r ∈ linearResiduals tfAt ncols 0 ms, r = 0) := by
  have hr0 : stateR0 0 = 0 := by
    funext i
    rfl
  have hp0 : stateP0 0 = 0 := by
    funext i
    rfl
  constructor
  · intro r hr
    obtain ⟨m, hm, hmr⟩ := List.mem_map.mp hr
    rw [← hmr]
    unfold rigidMatchResidual
    rw [hr0, hp0, so3Exp_zero]
    show m.U.mulVec (m.mcpMean - SE3M.apply ⟨1, 0⟩ ((tfAt m.px).apply m.mcgMean)) = 0
    rw [← h m hm]
    show m.U.mulVec (m.mcpMean - ((1 : Mat3).mulVec m.mcpMean + 0)) = 0
    rw [Matrix.one_mulVec, add_zero, sub_self, Matrix.mulVec_zero]
  · intro r hr
    obtain ⟨m, hm, hmr⟩ := List.mem_map.mp hr
    rw [← hmr]
    unfold linearMatchResidual
    rw [hr0, hp0, so3Exp_zero]
    show m.U.mulVec (m.mcpMean -
      ((1 : Mat3).mulVec ((tfAt m.px).apply m.mcgMean) +
        (((m.px : ℝ) + 0.5) / (ncols : ℝ)) • (0 : Vec3))) = 0
    rw [← h m hm, Matrix.one_mulVec, smul_zero, add_zero, sub_self,
      Matrix.mulVec_zero]

/-- A single valid match whose pano mean equals the (identity) predicted
transform applied to its sweep mean. -/
def c6match : PointMatch :=
  { ok := true, U := 1, mcgMean := 0, mcpMean := 0, px := 0 }

/-- The identity cell transform at every grid column. -/
def c6tf : ℕ → SE3M := fun _ => { R := 1, t := 0 }

theorem c6_zero_residual_at_identity_witness :
    (∀ m ∈ [c6match], m.mcpMean = (c6tf m.px).apply m.mcgMean) ∧
    ((∀ r ∈ rigidResiduals c6tf 0 [c6match], r = 0) ∧
     (∀ r ∈ linearResiduals c6tf 4 0 [c6match], r = 0)) := by
  have h : ∀ m ∈ [c6match], m.mcpMean = (c6tf m.px).apply m.mcgMean := by
    intro m hm
    rw [List.mem_singleton] at hm
    subst hm
    show (0 : Vec3) = (1 : Mat3).mulVec 0 + 0
    rw [Matrix.mulVec_zero, add_zero]
  exact ⟨h, c6_zero_residual_at_identity c6tf 4 [c6match] h⟩

/-- C8: for every trajectory with at least one state and every accumulated
correction, `GicpRigidCost::UpdateTraj` modifies only state 0 —
`rot ← eR·rot`, `pos ← eR·pos + p0`, `vel ← vel + p0/duration` — and every
state of index ≥ 1 keeps its rot, pos, vel and time (the tail of the
state list is returned unchanged); state 0's time is also untouched
(the record update assigns only rot, pos and vel). -/
theorem c8_update_traj_only_first (st : NavState) (rest : List NavState)
    (buf : List ImuData) (bias : ImuBias) (noise : ImuNoise) (g_pano : Vec3)
    (error : Fin 6 → ℝ) :
    (GicpRigidCost.UpdateTraj ⟨st :: rest, buf, bias, noise, g_pano⟩
        error).states =
      { st with
        rot := so3Exp (stateR0 error) * st.rot
        pos := (so3Exp (stateR0 error)).mulVec st.pos + stateP0 error
        vel := st.vel + (fun i => stateP0 error i /
          ImuTraj.duration ⟨st :: rest, buf, bias, noise, g_pano⟩) } ::
      rest := rfl

/-! ## GICP cost: Jacobian assembly of the IMU residual (C1) -/

/-- Store `J.block<3,3>(r0, c0) = B` on the (row, col)-indexed Jacobian
buffer. -/
def writeBlock3 (J : ℕ → ℕ → ℝ) (r0 c0 : ℕ) (B : Mat3) : ℕ → ℕ → ℝ :=
  fun r c =>
    if h : r0 ≤ r ∧ r < r0 + 3 ∧ c0 ≤ c ∧ c < c0 + 3 then
      B ⟨r - r0, by omega⟩ ⟨c - c0, by omega⟩
    else J r c

/-- `Block::kR0 * 3` — first column of the r₀ block (cost.h: kR0 = 0; the
spec's parameter layout ξ = (r₀, p₀)). -/
def colR0 : ℕ := 0

/-- `Block::kP0 * 3` — first column of the p₀ block (cost.h: kP0 = 1). -/
def colP0 : ℕ := 3

theorem writeBlock3_in (J : ℕ → ℕ → ℝ) (r0 c0 : ℕ) (B : Mat3) (i j : Fin 3) :
    writeBlock3 J r0 c0 B (r0 + i.val) (c0 + j.val) = B i j := by
  unfold writeBlock3
  rw [dif_pos (by have hi := i.isLt; have hj := j.isLt; omega :
    r0 ≤ r0 + i.val ∧ r0 + i.val < r0 + 3 ∧ c0 ≤ c0 + j.val ∧ c0 + j.val < c0 + 3)]
  have hi : r0 + i.val - r0 = i.val := by omega
  have hj : c0 + j.val - c0 = j.val := by omega
  congr 1
  · exact Fin.ext hi
  · exact Fin.ext hj

theorem writeBlock3_out_row (J : ℕ → ℕ → ℝ) (r0 c0 : ℕ) (B : Mat3) (r c : ℕ)
    (h : r < r0 ∨ r0 + 3 ≤ r) : writeBlock3 J r0 c0 B r c = J r c := by
  unfold writeBlock3
  rw [dif_neg (by omega)]

theorem writeBlock3_out_col (J : ℕ → ℕ → ℝ) (r0 c0 : ℕ) (B : Mat3) (r c : ℕ)
    (h : c < c0 ∨ c0 + 3 ≤ c) : writeBlock3 J r0 c0 B r c = J r c := by
  unfold writeBlock3
  rw [dif_neg (by omega)]

/-- The per-match Jacobian writes of `GicpRigidCost::operator()`
(cost.cpp): match `i` writes rows `ri = kResidualDim * i = 3i`:
`U * Hat3(pt_p_hat)` in the r₀ columns and `-U` in the p₀ columns. -/
noncomputable def rigidMatchJac (tfAt : ℕ → SE3M) :
    List PointMatch → ℕ → (ℕ → ℕ → ℝ) → ℕ → ℕ → ℝ
  | [], _, J => J
  | m :: rest, i, J =>
      let ptPhat := (tfAt m.px).apply m.mcgMean
      let J1 := writeBlock3 J (3 * i) colR0 (m.U * Hat3 ptPhat)
      let J2 := writeBlock3 J1 (3 * i) colP0 (-m.U)
      rigidMatchJac tfAt rest (i + 1) J2

theorem rigidMatchJac_high_rows (tfAt : ℕ → SE3M) (ms : List PointMatch) :
    ∀ (i0 : ℕ) (J : ℕ → ℕ → ℝ) (r c : ℕ), 3 * (i0 + ms.length) ≤ r →
      rigidMatchJac tfAt ms i0 J r c = J r c := by
  induction ms with
  | nil =>
      intro i0 J r c h
      rfl
  | cons m rest ih =>
      intro i0 J r c h
      rw [List.length_cons] at h
      show rigidMatchJac tfAt rest (i0 + 1) _ r c = J r c
      rw [ih (i0 + 1) _ r c (by omega)]
      rw [writeBlock3_out_row _ _ _ _ _ _ (Or.inr (by omega)),
        writeBlock3_out_row _ _ _ _ _ _ (Or.inr (by omega))]

/-- `U.block<3,3>(r0, c0)` of the 15×15 sqrt-information matrix. -/
def block15 (U : Matrix (Fin 15) (Fin 15) ℝ) (r0 c0 : ℕ) : Mat3 :=
  Matrix.of fun i j =>
    if h : r0 + i.val < 15 ∧ c0 + j.val < 15 then
      U ⟨r0 + i.val, h.1⟩ ⟨c0 + j.val, h.2⟩
    else 0

/-- The γ-residual Jacobian writes of `GicpRigidCost::operator()`
(cost.cpp, `// gamma jacobian`): `Ug * R0ᵀ` at rows `offset + 3 ..`, r₀
columns, then zero at the same rows, p₀ columns. -/
noncomputable def rigidImuJacGamma (ofs : ℕ) (Ug R0t : Mat3) (J : ℕ → ℕ → ℝ) :
    ℕ → ℕ → ℝ :=
  writeBlock3 (writeBlock3 J (ofs + 3) colR0 (Ug * R0t)) (ofs + 3) colP0 0

/-- The α-residual Jacobian writes (cost.cpp, `// alpha jacobian`):
`-(Ua * R0ᵀ * Hat3 p1_bar)` at rows `offset + 3 ..`, r₀ columns, and
`Ua * R0ᵀ` at the same rows, p₀ columns — the same rows as γ. -/
noncomputable def rigidImuJacAlpha (ofs : ℕ) (Ua R0t : Mat3) (p1bar : Vec3)
    (J : ℕ → ℕ → ℝ) : ℕ → ℕ → ℝ :=
  writeBlock3 (writeBlock3 J (ofs + 3) colR0 (-(Ua * R0t * Hat3 p1bar)))
    (ofs + 3) colP0 (Ua * R0t)

/-- The full Jacobian assembly of `GicpRigidCost::operator()` when a
trajectory is attached and a Jacobian is requested: the per-match writes,
then the γ writes, then the α writes. `offset = matches.size() * 3`;
`U = preint.U * imu_weight`; `Ua = U.block(kAlpha, kAlpha)`,
`Ug = U.block(kTheta, kTheta)` with kAlpha = 0, kTheta = 6;
`R0t = st0.rot.inverse()` (the transpose of the rotation matrix);
`p1bar = st1.pos`. -/
noncomputable def rigidCostJac (tfAt : ℕ → SE3M) (ms : List PointMatch)
    (preintU : Matrix (Fin 15) (Fin 15) ℝ) (imuWeight : ℝ) (R0 : Mat3)
    (p1bar : Vec3) (J0 : ℕ → ℕ → ℝ) : ℕ → ℕ → ℝ :=
  rigidImuJacAlpha (3 * ms.length)
    (block15 (imuWeight • preintU) idxALPHA idxALPHA) R0.transpose p1bar
    (rigidImuJacGamma (3 * ms.length)
      (block15 (imuWeight • preintU) idxTHETA idxTHETA) R0.transpose
      (rigidMatchJac tfAt ms 0 J0))

/-- C1: in `GicpRigidCost::operator()` with a trajectory attached and a
non-null Jacobian pointer, the IMU γ-residual Jacobian block and the IMU
α-residual Jacobian block are written to the same rows
`offset+3 .. offset+5` (offset = 3 · number of matches): right after the
γ writes those rows hold `Ug·R0ᵀ` in the r₀ columns and 0 in the p₀
columns, and in the final Jacobian they hold `-(Ua·R0ᵀ·⌊p1_bar⌋ₓ)` in the
r₀ columns and `Ua·R0ᵀ` in the p₀ columns — the α block overwrites the γ
block — while rows `offset .. offset+2` are never written by the IMU part
(nor by the per-match part, which stays below row `offset`) and keep the
initial buffer contents. -/
theorem c1_imu_jacobian_overwrite (tfAt : ℕ → SE3M) (ms : List PointMatch)
    (preintU : Matrix (Fin 15) (Fin 15) ℝ) (imuWeight : ℝ) (R0 : Mat3)
    (p1bar : Vec3) (J0 : ℕ → ℕ → ℝ) :
    (∀ i j : Fin 3,
      rigidImuJacGamma (3 * ms.length)
          (block15 (imuWeight • preintU) idxTHETA idxTHETA) R0.transpose
          (rigidMatchJac tfAt ms 0 J0)
          (3 * ms.length + 3 + i.val) (colR0 + j.val) =
        (block15 (imuWeight • preintU) idxTHETA idxTHETA * R0.transpose) i j) ∧
    (∀ i j : Fin 3,
      rigidImuJacGamma (3 * ms.length)
          (block15 (imuWeight • preintU) idxTHETA idxTHETA) R0.transpose
          (rigidMatchJac tfAt ms 0 J0)
          (3 * ms.length + 3 + i.val) (colP0 + j.val) = 0) ∧
    (∀ i j : Fin 3,
      rigidCostJac tfAt ms preintU imuWeight R0 p1bar J0
          (3 * ms.length + 3 + i.val) (colR0 + j.val) =
        (-(block15 (imuWeight • preintU) idxALPHA idxALPHA * R0.transpose *
            Hat3 p1bar)) i j) ∧
    (∀ i j : Fin 3,
      rigidCostJac tfAt ms preintU imuWeight R0 p1bar J0
          (3 * ms.length + 3 + i.val) (colP0 + j.val) =
        (block15 (imuWeight • preintU) idxALPHA idxALPHA * R0.transpose) i j) ∧
    (∀ (i : Fin 3) (c : ℕ),
      rigidCostJac tfAt ms preintU imuWeight R0 p1bar J0
          (3 * ms.length + i.val) c = J0 (3 * ms.length + i.val) c) := by
  refine ⟨?_, ?_, ?_, ?_, ?_⟩
  · intro i j
    unfold rigidImuJacGamma
    rw [writeBlock3_out_col _ _ _ _ _ _
      (Or.inl (by show colR0 + j.val < colP0; unfold colR0 colP0; omega))]
    exact writeBlock3_in _ _ _ _ i j
  · intro i j
    unfold rigidImuJacGamma
    rw [writeBlock3_in]
    exact Matrix.zero_apply i j
  · intro i j
    unfold rigidCostJac rigidImuJacAlpha
    rw [writeBlock3_out_col _ _ _ _ _ _
      (Or.inl (by show colR0 + j.val < colP0; unfold colR0 colP0; omega))]
    exact writeBlock3_in _ _ _ _ i j
  · intro i j
    unfold rigidCostJac rigidImuJacAlpha
    rw [writeBlock3_in]
  · intro i c
    unfold rigidCostJac rigidImuJacAlpha rigidImuJacGamma
    rw [writeBlock3_out_row _ _ _ _ _ _ (Or.inl (by have := i.isLt; omega)),
      writeBlock3_out_row _ _ _ _ _ _ (Or.inl (by have := i.isLt; omega)),
      writeBlock3_out_row _ _ _ _ _ _ (Or.inl (by have := i.isLt; omega)),
      writeBlock3_out_row _ _ _ _ _ _ (Or.inl (by have := i.isLt; omega))]
    exact rigidMatchJac_high_rows tfAt ms 0 J0 (3 * ms.length + i.val) c
      (by omega)
